import Mathlib

/-!
Verification of the SOCIOTYPER triplet validation and normalization core.

The Python source is shallowly embedded: dictionaries become structures
(with an `extra` field for keys the code never touches), in-place mutation
becomes explicit state passing (`validate` returns the result together with
the possibly-updated candidate), floats become rationals, and the two
external similarity libraries (rapidfuzz `process.extractOne` and the
sentence-transformer embedding model) are abstracted as function parameters.
Python `str.strip`, `str.lower`, `len` and `str.split()` are modelled
character-by-character so that every definition evaluates in the kernel.
-/

/-! ## Python string primitives -/

/-- Python `str.strip()` on a character list: drop leading and trailing
whitespace. -/
def pyStripChars (l : List Char) : List Char :=
  ((l.dropWhile Char.isWhitespace).reverse.dropWhile Char.isWhitespace).reverse

/-- Python `str.strip()` on `String`. -/
def pyStrip (s : String) : String := String.mk (pyStripChars s.data)

/-- Python `str.lower()` on `String` (per-character lowering). -/
def pyLower (s : String) : String := String.mk (s.data.map Char.toLower)

/-- Python `len` on a string: number of code points. -/
def pyLen (s : String) : Nat := s.data.length

/-! ## Configuration constants (utils/config.py) -/

/-- `GENERIC_COUNTERROLES` from config.py. -/
def GENERIC_COUNTERROLES : List String :=
  ["people", "partners", "community", "stakeholders", "members",
   "participants", "organizations", "institutions", "entities",
   "others", "them", "they", "it", "we", "us"]

/-- `VAGUE_PRACTICES` from config.py. -/
def VAGUE_PRACTICES : List String :=
  ["has", "is", "are", "was", "were", "be", "been",
   "discusses", "mentions", "focuses on", "refers to"]

/-- `DEFAULT_FUZZY_MATCH_THRESHOLD` from config.py. -/
def DEFAULT_FUZZY_MATCH_THRESHOLD : Int := 60

/-- `CANONICAL_VERBS_LIST` from config.py: `sorted(list(CANONICAL_VERBS))`. -/
def CANONICAL_VERBS_LIST : List String :=
  ["accelerate", "advocate", "ally", "award", "build", "campaign", "coach",
   "collaborate", "connect", "coordinate", "create", "deliver", "develop",
   "educate", "enable", "establish", "facilitate", "finance", "found",
   "fund", "grant", "host", "implement", "incubate", "initiate",
   "innovate", "introduce", "invest", "join", "launch", "manage", "mentor",
   "mobilize", "offer", "open", "operate", "organize", "partner", "pilot",
   "provide", "research", "run", "scale", "select", "set up", "sponsor",
   "start", "support", "team", "test", "train", "work"]

/-! ## Schemas (validation/schemas.py) -/

/-- `NEREntity`: a named entity found in the context. -/
structure NEREntity where
  text : String
  label : String
deriving DecidableEq

/-- `ExtractedTriplet`: a validated triplet with extraction metadata.
Float-valued scores are modelled as rationals. -/
structure ExtractedTriplet where
  role : String
  practice : String
  counterrole : String
  context : String := ""
  chunk_id : Option Int := none
  practice_original : Option String := none
  practice_score : Option ℚ := none
  model_confidence : Option ℚ := none
  ner : List NEREntity := []
deriving DecidableEq

/-- `ValidationResult`: outcome of validating one candidate. -/
structure ValidationResult where
  is_valid : Bool
  reason : String
  triplet : Option ExtractedTriplet := none
deriving DecidableEq

/-- The candidate dictionary passed to `TripletValidator.validate`.
A missing key behaves like its `dict.get` default (empty string / `None`),
so it is modelled by that default; `extra` carries every other key of the
dictionary, which the validator never reads or writes. -/
structure TripletDict where
  role : String := ""
  counterrole : String := ""
  practice : String := ""
  context : String := ""
  chunk_id : Option Int := none
  practice_original : Option String := none
  practice_score : Option ℚ := none
  model_confidence : Option ℚ := none
  ner : List NEREntity := []
  extra : List (String × String) := []
deriving DecidableEq

/-! ## Fuzzy matcher (validation/fuzzy_matcher.py)

The rapidfuzz call `process.extractOne(name, actors, scorer=token_sort_ratio,
score_cutoff=threshold)` is an external library and is abstracted as a
parameter `extractOne : String → List String → Int → Option String`. -/

/-- `FuzzyMatcher.__init__` state: the actor list and the default threshold.
The precomputed `_actor_lower_map` is recovered by `actorLowerLookup`. -/
structure FuzzyMatcher where
  actors : List String
  threshold : Int := DEFAULT_FUZZY_MATCH_THRESHOLD

/-- Lookup in `_actor_lower_map`, built by the dict comprehension
`\x7bactor.lower(): actor for actor in actors\x7d`: a comprehension keeps the
LAST actor inserted for each lowercase key. -/
def actorLowerLookup (actors : List String) (key : String) : Option String :=
  (actors.filter (fun a => pyLower a = key)).getLast?

/-- `FuzzyMatcher.match` (named `matchName` because `match` is a reserved
word in Lean): reject names shorter than 2 characters, then try the
case-insensitive exact map, then fall back to the abstract rapidfuzz
scorer. -/
def FuzzyMatcher.matchName (m : FuzzyMatcher)
    (extractOne : String → List String → Int → Option String)
    (name : String) (threshold? : Option Int) : Option String :=
  if name = "" ∨ pyLen name < 2 then none
  else
    let t := threshold?.getD m.threshold
    let nameLower := pyStrip (pyLower name)
    match actorLowerLookup m.actors nameLower with
    | some canonical => some canonical
    | none => extractOne name m.actors t

/-! ## Validator (validation/validator.py) -/

/-- `TripletValidator.__init__` state.  The matcher is the
dependency-injected `FuzzyMatcher` (the lazy default built from the JSON
actor catalog is file I/O, out of the modelled core). -/
structure TripletValidator where
  matcher : FuzzyMatcher
  fuzzy_threshold : Int := DEFAULT_FUZZY_MATCH_THRESHOLD
  require_actor_match : Bool := true
  filter_generic : Bool := true

/-- Build the `ExtractedTriplet` returned on success, reading the
(already mutated) candidate dictionary, as the source does. -/
def buildValidated (t : TripletDict) : ExtractedTriplet :=
  { role := t.role, practice := t.practice, counterrole := t.counterrole,
    context := t.context, chunk_id := t.chunk_id,
    practice_original := t.practice_original,
    practice_score := t.practice_score,
    model_confidence := t.model_confidence, ner := t.ner }

/-- `TripletValidator.validate`.  Python mutates the candidate dictionary in
place; here the (result, updated dictionary) pair is returned.  Note the
presence check runs on the RAW field values (`if not role_raw or ...`)
before `str.strip` is applied, and `if not matched_role` treats an empty
matched string like a failed match (Python truthiness). -/
def TripletValidator.validate (v : TripletValidator)
    (extractOne : String → List String → Int → Option String)
    (triplet : TripletDict) : ValidationResult × TripletDict :=
  let role_raw0 := triplet.role
  let counterrole_raw0 := triplet.counterrole
  let practice0 := triplet.practice
  if role_raw0 = "" ∨ counterrole_raw0 = "" ∨ practice0 = "" then
    ({ is_valid := false, reason := "Missing required fields" }, triplet)
  else
    let role_raw := pyStrip role_raw0
    let counterrole_raw := pyStrip counterrole_raw0
    let practice := pyStrip practice0
    if pyLen role_raw < 2 then
      ({ is_valid := false, reason := "Role too short" }, triplet)
    else if pyLen counterrole_raw < 3 then
      ({ is_valid := false, reason := "Counterrole too short" }, triplet)
    else if pyLen counterrole_raw > 100 then
      ({ is_valid := false, reason := "Counterrole too long" }, triplet)
    else if v.filter_generic ∧ pyLower counterrole_raw ∈ GENERIC_COUNTERROLES then
      ({ is_valid := false, reason := "Generic counterrole" }, triplet)
    else if pyLower practice ∈ VAGUE_PRACTICES then
      ({ is_valid := false, reason := "Vague practice verb" }, triplet)
    else if v.require_actor_match then
      match v.matcher.matchName extractOne role_raw (some v.fuzzy_threshold) with
      | none =>
        ({ is_valid := false, reason := "Role not in actor catalog" }, triplet)
      | some matched_role =>
        if matched_role = "" then
          ({ is_valid := false, reason := "Role not in actor catalog" }, triplet)
        else
          let t' := { triplet with role := matched_role,
                                   counterrole := counterrole_raw,
                                   practice := practice }
          ({ is_valid := true, reason := "valid",
             triplet := some (buildValidated t') }, t')
    else
      let t' := { triplet with role := role_raw,
                               counterrole := counterrole_raw,
                               practice := practice }
      ({ is_valid := true, reason := "valid",
         triplet := some (buildValidated t') }, t')

/-- `TripletValidator.validate_batch`: validate each candidate in order,
collecting every result and the accepted triplets (`if result.is_valid and
result.triplet`: a pydantic model is always truthy, so the test is
`is_valid` and `triplet is not None`). -/
def TripletValidator.validate_batch (v : TripletValidator)
    (extractOne : String → List String → Int → Option String) :
    List TripletDict → List ExtractedTriplet × List ValidationResult
  | [] => ([], [])
  | t :: ts =>
    let result := (v.validate extractOne t).1
    let rest := v.validate_batch extractOne ts
    match result.is_valid, result.triplet with
    | true, some tr => (tr :: rest.1, result :: rest.2)
    | true, none => (rest.1, result :: rest.2)
    | false, _ => (rest.1, result :: rest.2)

/-! ## Verb normalizer (core/normalizer.py)

The SentenceTransformer embedding model is external; the cosine similarity
between the phrase embedding and each canonical verb embedding is
abstracted as `sim : String → String → ℚ` (phrase, verb ↦ score). -/

/-- Maximum of a list of scores (the reference point for `torch.argmax`). -/
def maxScore : List ℚ → ℚ
  | [] => 0
  | [x] => x
  | x :: y :: t => max x (maxScore (y :: t))

/-- `torch.argmax` over a score list: index of the first occurrence of the
maximum. -/
def argmaxIdx : List ℚ → Nat
  | [] => 0
  | [_] => 0
  | x :: y :: t => if maxScore (y :: t) > x then argmaxIdx (y :: t) + 1 else 0

/-- `VerbNormalizer.normalize`: embed the phrase, score it against every
canonical verb, pick the best-scoring verb, and reject (returning the score
anyway) when the best score is below the threshold. -/
def VerbNormalizer.normalize (canonical_verbs : List String)
    (sim : String → String → ℚ) (threshold : ℚ) (phrase : String) :
    Option String × ℚ :=
  let scores := canonical_verbs.map (sim phrase)
  let best_idx := argmaxIdx scores
  let best_verb := canonical_verbs.getD best_idx ("")
  let best_score := scores.getD best_idx 0
  if best_score < threshold then (none, best_score) else (some best_verb, best_score)

/-! ## Extraction pipeline (core/extraction.py) -/

/-- `TripleExtractor._normalize_triplet_verbs` (leading underscore dropped):
normalize each candidate's practice; candidates whose verb fails to
normalize are dropped, the survivors get `practice`, `practice_original`
and `practice_score` set.  `if norm_verb:` is Python truthiness, so an
empty normalized verb is also dropped.  `normalizeFn` stands for
`self.normalizer.normalize` with the embedding model abstracted away. -/
def TripleExtractor.normalize_triplet_verbs
    (normalizeFn : String → Option String × ℚ) :
    List TripletDict → List TripletDict
  | [] => []
  | t :: ts =>
    match normalizeFn t.practice with
    | (some norm_verb, score) =>
      if norm_verb = "" then TripleExtractor.normalize_triplet_verbs normalizeFn ts
      else { t with practice := norm_verb,
                    practice_original := some t.practice,
                    practice_score := some score }
        :: TripleExtractor.normalize_triplet_verbs normalizeFn ts
    | (none, _) => TripleExtractor.normalize_triplet_verbs normalizeFn ts

/-! ## Actor catalog (actors/catalog.py)

The catalog dictionary (category → actor list) is modelled as an
association list, preserving Python dict iteration order. -/

/-- `ActorCatalog.remove_actor`: scan categories in order, remove the first
occurrence of the actor from the first category that contains it, and
report whether anything was removed. -/
def ActorCatalog.remove_actor :
    List (String × List String) → String → Bool × List (String × List String)
  | [], _ => (false, [])
  | (category, actors) :: rest, actor =>
    if actor ∈ actors then (true, (category, actors.erase actor) :: rest)
    else
      let r := ActorCatalog.remove_actor rest actor
      (r.1, (category, actors) :: r.2)

/-- `ActorCatalog.contains`: membership in the (rebuilt) actor-to-category
map, whose keys are exactly the actors listed in some category. -/
def ActorCatalog.contains (c : List (String × List String)) (actor : String) : Bool :=
  c.any (fun e => decide (actor ∈ e.2))

/-! ## Text chunker (core/chunker.py)

Modelled at the character-list level. `text.split()` (Python: split on
whitespace runs, dropping empty pieces) is `pyWordsChars`; `" ".join` is
`joinSpace`; `range(0, len(words), step)` for positive step is `pyRange`. -/

/-- A character that is not whitespace. -/
def nonWs (c : Char) : Bool := !c.isWhitespace

/-- Python `text.split()`: the maximal whitespace-free words of the text,
in order. -/
def pyWordsChars : List Char → List (List Char)
  | [] => []
  | c :: cs =>
    if c.isWhitespace then pyWordsChars cs
    else (c :: cs.takeWhile nonWs) :: pyWordsChars (cs.dropWhile nonWs)
termination_by l => l.length
decreasing_by
  · simp
  · have := (List.dropWhile_sublist (l := cs) nonWs).length_le
    simp
    omega

/-- Python `" ".join(ws)`. -/
def joinSpace : List (List Char) → List Char
  | [] => []
  | [w] => w
  | w :: ws => w ++ ' ' :: joinSpace ws

/-- Python `range(0, stop, step)` for a positive step: the multiples of
`step` below `stop` (for `step = 0` Python raises, modelled by callers). -/
def pyRange (stop step : Nat) : List Nat :=
  if stop = 0 ∨ step = 0 then []
  else 0 :: (pyRange (stop - step) step).map (fun i => i + step)
termination_by stop
decreasing_by omega

/-- `TextChunker._chunk_by_words` (leading underscore dropped).  The Python
loop is `for i in range(0, len(words), step)` with `step = chunk_size -
overlap` over the integers: a zero step raises `ValueError` (modelled as
`none`), a negative step (overlap above the chunk size) yields an empty
range and hence no chunks, and each kept chunk must have a non-empty
`strip()` (i.e. contain a non-whitespace character). -/
def TextChunker.chunk_by_words (chunkSize overlap : Nat) (text : List Char) :
    Option (List (List Char)) :=
  let words := pyWordsChars text
  if overlap < chunkSize then
    some (((pyRange words.length (chunkSize - overlap)).map
        (fun i => joinSpace ((words.drop i).take chunkSize))).filter
      (fun chunk => chunk.any nonWs))
  else if chunkSize = overlap then none
  else some []

/-! ## Concrete fixtures used by witnesses and counterexamples -/

/-- A one-actor matcher with the default threshold. -/
def demoMatcher : FuzzyMatcher := ⟨["MIT"], 60⟩

/-- A validator over `demoMatcher` with all defaults. -/
def demoValidator : TripletValidator := { matcher := demoMatcher }

/-- A rapidfuzz stand-in that never matches. -/
def extractOneNone : String → List String → Int → Option String :=
  fun _ _ _ => none

/-- A rapidfuzz stand-in that always matches the queried name itself. -/
def extractOneSelf : String → List String → Int → Option String :=
  fun n _ _ => some n

/-- A candidate that passes every validation rule of `demoValidator`. -/
def demoAccepted : TripletDict :=
  { role := "MIT", counterrole := "Startup XYZ", practice := "fund" }

/-- The spec §8 scenario candidate with the generic counterrole "people". -/
def demoGeneric : TripletDict :=
  { role := "MIT", practice := "collaborates closely with", counterrole := "people" }

/-- A similarity giving a phrase score 1 on itself and 0 elsewhere,
matching the spec's self-similarity property of canonical verbs. -/
def simSelf : String → String → ℚ := fun p v => if v = p then 1 else 0

/-- The normalizer behaviour on phrases that are already canonical:
the phrase maps to itself with full score. -/
def normalizeIdentity : String → Option String × ℚ := fun p => (some p, 1)

/-- A catalog listing the same actor under two categories. -/
def demoCatalog : List (String × List String) :=
  [("Universities", ["MIT"]), ("EIT Organizations", ["MIT"])]

/-- A text of exactly 2000 whitespace-separated one-letter words. -/
def wordsText : List Char := joinSpace (List.replicate 2000 ['w'])

/-! ## Helper lemmas -/

/-- The last element of a non-empty list all of whose elements equal `a`. -/
theorem getLast?_eq_of_mem_of_all_eq {α : Type} {l : List α} {a : α}
    (hne : l ≠ []) (hall : ∀ x ∈ l, x = a) : l.getLast? = some a := by
  induction l with
  | nil => exact absurd rfl hne
  | cons x t ih =>
    cases t with
    | nil => simp [hall x (by simp)]
    | cons y t' =>
      rw [List.getLast?_cons_cons]
      exact ih (by simp) (fun z hz => hall z (List.mem_cons_of_mem x hz))

/-- Every element of a score list is bounded by `maxScore`. -/
theorem le_maxScore : ∀ (l : List ℚ), ∀ x ∈ l, x ≤ maxScore l := by
  intro l
  induction l with
  | nil => intro x hx; simp at hx
  | cons a t ih =>
    intro x hx
    cases t with
    | nil => simp at hx; simp [maxScore, hx]
    | cons b t' =>
      rcases List.mem_cons.mp hx with h | h
      · rw [h, maxScore]; exact le_max_left _ _
      · exact le_trans (ih x h) (by rw [maxScore]; exact le_max_right _ _)

/-- `argmaxIdx` is a valid index of a non-empty list. -/
theorem argmaxIdx_lt : ∀ (l : List ℚ), l ≠ [] → argmaxIdx l < l.length := by
  intro l
  induction l with
  | nil => intro h; exact absurd rfl h
  | cons a t ih =>
    intro _
    cases t with
    | nil => simp [argmaxIdx]
    | cons b t' =>
      rw [argmaxIdx]
      split_ifs
      · have := ih (by simp)
        simpa using Nat.succ_lt_succ this
      · simp

/-- The score at `argmaxIdx` is the maximum score. -/
theorem getD_argmaxIdx : ∀ (l : List ℚ), l ≠ [] → l.getD (argmaxIdx l) 0 = maxScore l := by
  intro l
  induction l with
  | nil => intro h; exact absurd rfl h
  | cons a t ih =>
    intro _
    cases t with
    | nil => simp [argmaxIdx, maxScore]
    | cons b t' =>
      rw [argmaxIdx, maxScore]
      split_ifs with hgt
      · rw [List.getD_cons_succ, ih (by simp)]
        exact (max_eq_right (le_of_lt hgt)).symm
      · rw [List.getD_cons_zero]
        exact (max_eq_left (not_lt.mp hgt)).symm

/-- Every word produced by `pyWordsChars` is non-empty and whitespace-free. -/
theorem pyWordsChars_good : ∀ (t : List Char), ∀ w ∈ pyWordsChars t,
    w ≠ [] ∧ ∀ c ∈ w, nonWs c = true := by
  intro t
  induction t using pyWordsChars.induct with
  | case1 => intro w hw; simp [pyWordsChars] at hw
  | case2 c cs hws ih =>
    intro w hw
    rw [pyWordsChars, if_pos hws] at hw
    exact ih w hw
  | case3 c cs hws ih =>
    intro w hw
    rw [pyWordsChars, if_neg hws] at hw
    rcases List.mem_cons.mp hw with h | h
    · subst h
      refine ⟨by simp, ?_⟩
      intro x hx
      rcases List.mem_cons.mp hx with h | h
      · subst h; simp [nonWs, hws]
      · exact List.mem_takeWhile_imp h
    · exact ih w h

/-- Splitting a word followed by nothing or by whitespace recovers the word. -/
theorem pyWordsChars_word_append (w t : List Char)
    (hne : w ≠ []) (hgood : ∀ c ∈ w, nonWs c = true)
    (ht : t = [] ∨ ∃ d t', t = d :: t' ∧ d.isWhitespace = true) :
    pyWordsChars (w ++ t) = w :: pyWordsChars t := by
  rcases w with _ | ⟨c, w'⟩
  · exact absurd rfl hne
  · have hc : ¬ c.isWhitespace = true := by
      have := hgood c (by simp)
      simp [nonWs] at this
      simp [this]
    have htw : t.takeWhile nonWs = [] := by
      rcases ht with h | ⟨d, t', rfl, hd⟩
      · simp [h]
      · simp [List.takeWhile_cons, nonWs, hd]
    have htd : t.dropWhile nonWs = t := by
      rcases ht with h | ⟨d, t', rfl, hd⟩
      · simp [h]
      · simp [List.dropWhile_cons, nonWs, hd]
    have hw' : ∀ c ∈ w', nonWs c = true := fun x hx => hgood x (by simp [hx])
    rw [List.cons_append, pyWordsChars, if_neg hc]
    rw [List.takeWhile_append_of_pos hw', List.dropWhile_append_of_pos hw', htw, htd,
      List.append_nil]

/-- Round trip: splitting the space-join of non-empty whitespace-free words
gives back exactly those words. -/
theorem pyWordsChars_joinSpace (ws : List (List Char))
    (hgood : ∀ w ∈ ws, w ≠ [] ∧ ∀ c ∈ w, nonWs c = true) :
    pyWordsChars (joinSpace ws) = ws := by
  induction ws with
  | nil => simp [joinSpace, pyWordsChars]
  | cons w rest ih =>
    obtain ⟨hne, hw⟩ := hgood w (by simp)
    cases rest with
    | nil =>
      have := pyWordsChars_word_append w [] hne hw (Or.inl rfl)
      simpa [joinSpace, pyWordsChars] using this
    | cons y rest' =>
      have hjoin : joinSpace (w :: y :: rest') = w ++ ' ' :: joinSpace (y :: rest') := rfl
      rw [hjoin, pyWordsChars_word_append w (' ' :: joinSpace (y :: rest')) hne hw
        (Or.inr ⟨' ', joinSpace (y :: rest'), rfl, by decide⟩)]
      have hsp : (' ' : Char).isWhitespace = true := by decide
      rw [pyWordsChars, if_pos hsp]
      rw [ih (fun x hx => hgood x (List.mem_cons_of_mem w hx))]

/-- The space-join of non-empty whitespace-free words contains a
non-whitespace character. -/
theorem joinSpace_any (ws : List (List Char)) (hne : ws ≠ [])
    (hgood : ∀ w ∈ ws, w ≠ [] ∧ ∀ c ∈ w, nonWs c = true) :
    (joinSpace ws).any nonWs = true := by
  rcases ws with _ | ⟨w, rest⟩
  · exact absurd rfl hne
  · obtain ⟨hwne, hw⟩ := hgood w (by simp)
    rcases w with _ | ⟨c, w'⟩
    · exact absurd rfl hwne
    · have hc : nonWs c = true := hw c (by simp)
      cases rest with
      | nil => simp [joinSpace, List.any_cons, hc]
      | cons y rest' =>
        have hjoin : joinSpace ((c :: w') :: y :: rest')
            = (c :: w') ++ ' ' :: joinSpace (y :: rest') := rfl
        rw [hjoin, List.any_append]
        simp [List.any_cons, hc]

/-- Every index yielded by `pyRange` lies below its bound. -/
theorem pyRange_lt : ∀ (stop step : Nat), ∀ i ∈ pyRange stop step, i < stop := by
  intro stop
  induction stop using Nat.strong_induction_on with
  | _ stop ih =>
    intro step i hi
    rw [pyRange] at hi
    split_ifs at hi with h
    · simp at hi
    · push_neg at h
      rcases List.mem_cons.mp hi with h0 | hmem
      · omega
      · obtain ⟨j, hj, rfl⟩ := List.mem_map.mp hmem
        have := ih (stop - step) (by omega) step j hj
        omega

/-- The contiguous slices at `pyRange` offsets with step equal to the slice
width concatenate back to the whole list. -/
theorem pyRange_cover (cs : Nat) (hcs : 0 < cs) :
    ∀ (n : Nat) (l : List (List Char)), l.length = n →
      ((pyRange l.length cs).map (fun i => (l.drop i).take cs)).flatten = l := by
  intro n
  induction n using Nat.strong_induction_on with
  | _ n ih =>
    intro l hn
    rw [pyRange]
    split_ifs with h
    · rcases h with h | h
      · simp [List.length_eq_zero.mp h]
      · omega
    · push_neg at h
      obtain ⟨hl0, _⟩ := h
      have hlpos : 0 < l.length := Nat.pos_of_ne_zero hl0
      simp only [List.map_cons, List.flatten_cons, List.drop_zero, List.map_map]
      have hcomp : ((fun i => (l.drop i).take cs) ∘ fun i => i + cs)
          = fun i => ((l.drop cs).drop i).take cs := by
        funext i
        simp [List.drop_drop, Nat.add_comm]
      rw [hcomp]
      have hlen : (l.drop cs).length = l.length - cs := by simp
      have ihtail := ih ((l.drop cs).length) (by simp; omega) (l.drop cs) rfl
      rw [hlen] at ihtail
      rw [ihtail]
      exact List.take_append_drop cs l

/-- With zero overlap and a positive chunk size, word chunking produces
exactly the space-joins of the word slices at the range offsets (the
non-empty filter keeps every chunk), and splitting each chunk recovers its
word slice. -/
theorem chunk_by_words_eq (cs : Nat) (hcs : 0 < cs) (text : List Char) :
    TextChunker.chunk_by_words cs 0 text
      = some ((pyRange (pyWordsChars text).length cs).map
          (fun i => joinSpace (((pyWordsChars text).drop i).take cs))) ∧
    ∀ i ∈ pyRange (pyWordsChars text).length cs,
      pyWordsChars (joinSpace (((pyWordsChars text).drop i).take cs))
        = ((pyWordsChars text).drop i).take cs := by
  have hgoodslice : ∀ i ∈ pyRange (pyWordsChars text).length cs,
      (((pyWordsChars text).drop i).take cs) ≠ [] ∧
      ∀ w ∈ ((pyWordsChars text).drop i).take cs,
        w ≠ [] ∧ ∀ c ∈ w, nonWs c = true := by
    intro i hi
    have hilt : i < (pyWordsChars text).length := pyRange_lt _ _ i hi
    constructor
    · intro hnil
      rcases List.take_eq_nil_iff.mp hnil with h | h
      · omega
      · have : (pyWordsChars text).length ≤ i := by
          simpa using List.drop_eq_nil_iff.mp h
        omega
    · intro w hw
      exact pyWordsChars_good text w
        (List.drop_subset i _ (List.mem_of_mem_take hw))
  constructor
  · unfold TextChunker.chunk_by_words
    rw [if_pos hcs]
    simp only [Nat.sub_zero]
    congr 1
    apply List.filter_eq_self.mpr
    intro chunk hchunk
    obtain ⟨i, hi, rfl⟩ := List.mem_map.mp hchunk
    obtain ⟨hne, hgood⟩ := hgoodslice i hi
    exact joinSpace_any _ hne hgood
  · intro i hi
    obtain ⟨hne, hgood⟩ := hgoodslice i hi
    exact pyWordsChars_joinSpace _ hgood

/-- `range(0, 2000, 900)` enumerates 0, 900, 1800. -/
theorem pyRange_2000_900 : pyRange 2000 900 = [0, 900, 1800] := by
  rw [pyRange]
  norm_num
  rw [pyRange]
  norm_num
  rw [pyRange]
  norm_num
  rw [pyRange]
  norm_num

/-! ## Claim C1 — presence rule and the "missing required fields" reason -/

/-- Claim C1, counterexample: a candidate whose role is a single space is
empty after trimming, yet `validate` rejects it with "Role too short", not
with the missing-required-fields reason (in either capitalization): the
presence rule is evaluated on the raw, untrimmed values. -/
theorem C1_counterexample :
    pyStrip (" ") = "" ∧
    (TripletValidator.validate demoValidator extractOneNone
        { role := " ", counterrole := "abc", practice := "fund" }).1
      = { is_valid := false, reason := "Role too short" } ∧
    (TripletValidator.validate demoValidator extractOneNone
        { role := " ", counterrole := "abc", practice := "fund" }).1.reason
      ≠ "Missing required fields" ∧
    (TripletValidator.validate demoValidator extractOneNone
        { role := " ", counterrole := "abc", practice := "fund" }).1.reason
      ≠ "missing required fields" := by decide

/-- Claim C1, amended: `validate` reports "Missing required fields" exactly
when role, counterrole, or practice is the empty string BEFORE trimming;
whitespace-only fields pass the presence rule and are caught (if at all) by
the later length rules. -/
theorem C1_presence_checked_pretrim (v : TripletValidator)
    (f : String → List String → Int → Option String) (d : TripletDict) :
    ((v.validate f d).1 = { is_valid := false, reason := "Missing required fields" })
      ↔ (d.role = "" ∨ d.counterrole = "" ∨ d.practice = "") := by
  unfold TripletValidator.validate
  by_cases h1 : d.role = "" ∨ d.counterrole = "" ∨ d.practice = ""
  · simp [h1]
  · rw [if_neg h1]
    simp only [h1, iff_false]
    split_ifs <;>
      first
        | decide
        | (rcases hm : v.matcher.matchName f (pyStrip d.role) (some v.fuzzy_threshold) with _ | m
           · simp [hm]
           · simp only [hm]
             split_ifs <;> simp)
        | simp

/-! ## Claim C2 — `practice_original` after verb normalization -/

set_option maxRecDepth 4000 in
/-- Claim C2, counterexample: "fund" is already canonical, and with a
self-similarity scorer the normalizer maps it to itself with full score —
yet the surviving triplet's `practice_original` is `some "fund"`, not empty
or absent, because `_normalize_triplet_verbs` always records the
pre-normalization practice. -/
theorem C2_counterexample :
    (VerbNormalizer.normalize CANONICAL_VERBS_LIST simSelf 0 ("fund"))
      = (some "fund", 1) ∧
    (TripleExtractor.normalize_triplet_verbs
        (fun p => VerbNormalizer.normalize CANONICAL_VERBS_LIST simSelf 0 p)
        [demoAccepted]).map (fun t => t.practice_original)
      = [some "fund"] := by decide

/-- Claim C2, amended: for EVERY candidate kept by verb normalization —
whether or not its verb changed — the resulting triplet's
`practice_original` equals the pre-normalization practice string, its
practice is the verb the normalizer returned, and its `practice_score` is
the normalizer's score. -/
theorem C2_practice_original_always_set
    (normalizeFn : String → Option String × ℚ) (ts : List TripletDict) :
    ∀ u ∈ TripleExtractor.normalize_triplet_verbs normalizeFn ts, ∃ t ∈ ts,
      u.practice_original = some t.practice ∧
      (normalizeFn t.practice).1 = some u.practice ∧
      u.practice_score = some (normalizeFn t.practice).2 := by
  induction ts with
  | nil => intro u hu; simp [TripleExtractor.normalize_triplet_verbs] at hu
  | cons t ts ih =>
    intro u hu
    unfold TripleExtractor.normalize_triplet_verbs at hu
    rcases hn : normalizeFn t.practice with ⟨nv, score⟩
    rw [hn] at hu
    rcases nv with _ | v
    · obtain ⟨t', ht', h⟩ := ih u hu
      exact ⟨t', List.mem_cons_of_mem t ht', h⟩
    · dsimp only at hu
      split_ifs at hu with he
      · obtain ⟨t', ht', h⟩ := ih u hu
        exact ⟨t', List.mem_cons_of_mem t ht', h⟩
      · rcases List.mem_cons.mp hu with h | h
        · refine ⟨t, List.mem_cons_self t ts, ?_⟩
          rw [h, hn]
          exact ⟨rfl, rfl, rfl⟩
        · obtain ⟨t', ht', h'⟩ := ih u h
          exact ⟨t', List.mem_cons_of_mem t ht', h'⟩

/-- Claim C2 witness: the identity normalizer keeps `demoAccepted`, and the
kept triplet (with `practice_original` set to the original "fund") indeed
satisfies the amended property. -/
theorem C2_practice_original_always_set_witness :
    (({ role := "MIT", counterrole := "Startup XYZ", practice := "fund",
        practice_original := some "fund", practice_score := some 1 } : TripletDict)
      ∈ TripleExtractor.normalize_triplet_verbs normalizeIdentity [demoAccepted]) ∧
    (∃ t ∈ [demoAccepted],
      ({ role := "MIT", counterrole := "Startup XYZ", practice := "fund",
         practice_original := some "fund", practice_score := some 1 }
        : TripletDict).practice_original = some t.practice ∧
      (normalizeIdentity t.practice).1
        = some ({ role := "MIT", counterrole := "Startup XYZ", practice := "fund",
                  practice_original := some "fund", practice_score := some 1 }
            : TripletDict).practice ∧
      ({ role := "MIT", counterrole := "Startup XYZ", practice := "fund",
         practice_original := some "fund", practice_score := some 1 }
        : TripletDict).practice_score = some (normalizeIdentity t.practice).2) :=
  ⟨by decide,
   C2_practice_original_always_set normalizeIdentity [demoAccepted] _ (by decide)⟩

/-! ## Claim C3 — rule ordering: generic counterrole before actor match -/

/-- Claim C3: the rules run in the fixed source order and the first failing
rule alone determines the reason.  For any candidate passing presence and
the length rules whose trimmed, lowered counterrole is generic, `validate`
rejects with "Generic counterrole" and leaves the candidate untouched — for
EVERY matcher, rapidfuzz scorer and practice, so the generic filter fires
before vague-practice and before any actor-catalog matching of the role. -/
theorem C3_generic_counterrole_before_actor_match (v : TripletValidator)
    (f : String → List String → Int → Option String) (d : TripletDict)
    (hg : v.filter_generic = true)
    (h1 : d.role ≠ "") (h2 : d.counterrole ≠ "") (h3 : d.practice ≠ "")
    (h4 : 2 ≤ pyLen (pyStrip d.role))
    (h5 : 3 ≤ pyLen (pyStrip d.counterrole))
    (h6 : pyLen (pyStrip d.counterrole) ≤ 100)
    (h7 : pyLower (pyStrip d.counterrole) ∈ GENERIC_COUNTERROLES) :
    (v.validate f d).1 = { is_valid := false, reason := "Generic counterrole" } ∧
    (v.validate f d).2 = d := by
  unfold TripletValidator.validate
  rw [if_neg (by simp [h1, h2, h3])]
  rw [if_neg (by omega), if_neg (by omega), if_neg (by omega), if_pos ⟨hg, h7⟩]
  exact ⟨rfl, rfl⟩

/-- Claim C3 witness: the spec §8 scenario — role "MIT", practice
"collaborates closely with", counterrole "people" — is rejected with
"Generic counterrole" even under a scorer that would match any role. -/
theorem C3_generic_counterrole_before_actor_match_witness :
    (TripletValidator.validate demoValidator extractOneSelf demoGeneric).1
      = { is_valid := false, reason := "Generic counterrole" } ∧
    (TripletValidator.validate demoValidator extractOneSelf demoGeneric).2
      = demoGeneric :=
  C3_generic_counterrole_before_actor_match demoValidator extractOneSelf demoGeneric
    (by decide) (by decide) (by decide) (by decide) (by decide) (by decide)
    (by decide) (by decide)

/-! ## Claim C4 — the batch contract -/

/-- Claim C4: `validate_batch` returns one result per candidate in input
order, the accepted triplets form the order-preserving subsequence of the
inputs whose validation succeeded, and the valid and rejected counts sum to
the input count. -/
theorem C4_validate_batch_contract (v : TripletValidator)
    (f : String → List String → Int → Option String) (ts : List TripletDict) :
    (v.validate_batch f ts).2 = ts.map (fun t => (v.validate f t).1) ∧
    (v.validate_batch f ts).2.length = ts.length ∧
    (v.validate_batch f ts).1 = ts.filterMap (fun t =>
      if (v.validate f t).1.is_valid then (v.validate f t).1.triplet else none) ∧
    ((v.validate_batch f ts).2.countP (fun r => r.is_valid)) +
      ((v.validate_batch f ts).2.countP (fun r => !r.is_valid)) = ts.length := by
  have hcnt : ∀ l : List ValidationResult,
      l.countP (fun r => r.is_valid) + l.countP (fun r => !r.is_valid) = l.length := by
    intro l
    induction l with
    | nil => simp
    | cons r l ih =>
      rcases hr : r.is_valid with _ | _ <;> simp [List.countP_cons, hr] <;> omega
  have hmain : (v.validate_batch f ts).2 = ts.map (fun t => (v.validate f t).1) ∧
      (v.validate_batch f ts).1 = ts.filterMap (fun t =>
        if (v.validate f t).1.is_valid then (v.validate f t).1.triplet else none) := by
    induction ts with
    | nil => simp [TripletValidator.validate_batch]
    | cons t ts ih =>
      obtain ⟨ih1, ih2⟩ := ih
      unfold TripletValidator.validate_batch
      rcases hv : (v.validate f t).1.is_valid with _ | _ <;>
        rcases ht : (v.validate f t).1.triplet with _ | tr <;>
          simp [hv, ht, ih1, ih2, List.filterMap_cons]
  have hlen : (v.validate_batch f ts).2.length = ts.length := by
    rw [hmain.1, List.length_map]
  exact ⟨hmain.1, hlen, hmain.2, by rw [hcnt, hlen]⟩

/-! ## Claim C5 — case-insensitive exact matching of catalog actors -/

/-- Claim C5, counterexample: the catalog actor "X" and the input "x" are
equal up to letter case, but `match` returns `none` — the length guard
rejects any input shorter than 2 characters before the exact-match lookup
is ever consulted, so the claim fails for 1-character catalog actors. -/
theorem C5_counterexample :
    ("X" ∈ (⟨["X"], 60⟩ : FuzzyMatcher).actors) ∧
    pyLower ("x") = pyLower ("X") ∧
    FuzzyMatcher.matchName ⟨["X"], 60⟩ extractOneNone ("x") none = none := by decide

/-- Claim C5, amended: for a catalog actor of length at least 2 whose
lowercase form carries no surrounding whitespace and is not shared with any
other catalog entry, every input of length at least 2 that equals the actor
up to letter case is matched to the actor's canonical catalog spelling, for
every rapidfuzz scorer and every threshold (the fuzzy path is never
consulted). -/
theorem C5_exact_match_amended (m : FuzzyMatcher)
    (f : String → List String → Int → Option String)
    (t? : Option Int) (a s : String)
    (ha : a ∈ m.actors) (hlen : 2 ≤ pyLen s)
    (hcase : pyLower s = pyLower a)
    (hws : pyStrip (pyLower a) = pyLower a)
    (huniq : ∀ b ∈ m.actors, pyLower b = pyLower a → b = a) :
    m.matchName f s t? = some a := by
  have hlook : actorLowerLookup m.actors (pyStrip (pyLower s)) = some a := by
    rw [hcase, hws]
    unfold actorLowerLookup
    refine getLast?_eq_of_mem_of_all_eq ?_ ?_
    · intro hnil
      have hmem : a ∈ m.actors.filter (fun b => decide (pyLower b = pyLower a)) := by
        rw [List.mem_filter]
        exact ⟨ha, by simp⟩
      rw [hnil] at hmem
      simp at hmem
    · intro x hx
      rw [List.mem_filter] at hx
      exact huniq x hx.1 (by simpa using hx.2)
  unfold FuzzyMatcher.matchName
  rw [if_neg]
  · dsimp only
    rw [hlook]
  · push_neg
    refine ⟨fun hs => ?_, by omega⟩
    subst hs
    exact absurd hlen (by decide)

/-- Claim C5 witness: "mit" matches the catalog spelling "MIT" through the
exact path, with a scorer that never matches. -/
theorem C5_exact_match_amended_witness :
    FuzzyMatcher.matchName demoMatcher extractOneNone ("mit") none = some "MIT" :=
  C5_exact_match_amended demoMatcher extractOneNone none "MIT" "mit"
    (by decide) (by decide) (by decide) (by decide) (by decide)

/-! ## Claim C6 — names shorter than 2 characters -/

/-- Claim C6: any input shorter than 2 characters (the empty string
included) is rejected immediately by `match`, for every catalog, every
rapidfuzz scorer and every threshold. -/
theorem C6_short_name_rejected (m : FuzzyMatcher)
    (f : String → List String → Int → Option String)
    (name : String) (t? : Option Int) (h : pyLen name < 2) :
    m.matchName f name t? = none := by
  unfold FuzzyMatcher.matchName
  rw [if_pos (Or.inr h)]

/-- Claim C6 witness: the one-character input "x" is rejected even by a
scorer that would match it. -/
theorem C6_short_name_rejected_witness :
    FuzzyMatcher.matchName demoMatcher extractOneSelf ("x") none = none :=
  C6_short_name_rejected demoMatcher extractOneSelf "x" none (by decide)

/-! ## Claim C7 — normalization selects the maximally similar verb -/

/-- Claim C7: over a non-empty canonical verb list and an abstract
similarity, `normalize` reports as its score the maximal similarity of the
phrase to any canonical verb (no verb scores higher, some verb attains it);
when that score is below the threshold the verb component is `none` with
the score still reported, and otherwise the returned verb is a canonical
verb attaining the maximal score. -/
theorem C7_normalize_selects_max (verbs : List String)
    (sim : String → String → ℚ) (threshold : ℚ) (phrase : String)
    (h : verbs ≠ []) :
    (∀ v ∈ verbs,
        sim phrase v ≤ (VerbNormalizer.normalize verbs sim threshold phrase).2) ∧
    (∃ v ∈ verbs,
        sim phrase v = (VerbNormalizer.normalize verbs sim threshold phrase).2) ∧
    ((VerbNormalizer.normalize verbs sim threshold phrase).2 < threshold →
        (VerbNormalizer.normalize verbs sim threshold phrase).1 = none) ∧
    (threshold ≤ (VerbNormalizer.normalize verbs sim threshold phrase).2 →
        ∃ v ∈ verbs, (VerbNormalizer.normalize verbs sim threshold phrase).1 = some v ∧
          sim phrase v = (VerbNormalizer.normalize verbs sim threshold phrase).2) := by
  have hs : verbs.map (sim phrase) ≠ [] := by
    intro hnil; exact h (List.map_eq_nil_iff.mp hnil)
  have hidx : argmaxIdx (verbs.map (sim phrase)) < verbs.length := by
    have := argmaxIdx_lt (verbs.map (sim phrase)) hs
    simpa using this
  have hscore : (verbs.map (sim phrase)).getD (argmaxIdx (verbs.map (sim phrase))) 0
      = maxScore (verbs.map (sim phrase)) := getD_argmaxIdx _ hs
  have hbest_score :
      (VerbNormalizer.normalize verbs sim threshold phrase).2
        = maxScore (verbs.map (sim phrase)) := by
    unfold VerbNormalizer.normalize
    dsimp only
    split_ifs <;> simpa using hscore
  have hbest_verb : sim phrase (verbs.getD (argmaxIdx (verbs.map (sim phrase))) (""))
      = maxScore (verbs.map (sim phrase)) := by
    rw [← hscore]
    rw [List.getD_eq_getElem?_getD, List.getD_eq_getElem?_getD,
        List.getElem?_eq_getElem hidx, List.getElem?_eq_getElem (by simpa using hidx)]
    simp
  refine ⟨?_, ?_, ?_, ?_⟩
  · intro v hv
    rw [hbest_score]
    exact le_maxScore _ _ (List.mem_map.mpr ⟨v, hv, rfl⟩)
  · refine ⟨verbs.getD (argmaxIdx (verbs.map (sim phrase))) (""), ?_, ?_⟩
    · rw [List.getD_eq_getElem?_getD, List.getElem?_eq_getElem hidx]
      simp
    · rw [hbest_verb, hbest_score]
  · intro hlt
    unfold VerbNormalizer.normalize at hlt ⊢
    dsimp only at hlt ⊢
    split_ifs at hlt ⊢ with hc
    · rfl
    · exact absurd hlt (by simpa using hc)
  · intro hge
    refine ⟨verbs.getD (argmaxIdx (verbs.map (sim phrase))) (""), ?_, ?_, ?_⟩
    · rw [List.getD_eq_getElem?_getD, List.getElem?_eq_getElem hidx]
      simp
    · rw [hbest_score] at hge
      unfold VerbNormalizer.normalize
      dsimp only
      rw [if_neg (by rw [hscore]; exact not_lt.mpr hge)]
    · rw [hbest_verb, hbest_score]

/-- Claim C7 witness: the canonical verb list is non-empty, and the
normalization of "fund" under the self-similarity scorer satisfies the
maximal-similarity contract at threshold 0. -/
theorem C7_normalize_selects_max_witness :
    CANONICAL_VERBS_LIST ≠ [] ∧
    ((∀ v ∈ CANONICAL_VERBS_LIST,
        simSelf "fund" v
          ≤ (VerbNormalizer.normalize CANONICAL_VERBS_LIST simSelf 0 "fund").2) ∧
     (∃ v ∈ CANONICAL_VERBS_LIST,
        simSelf "fund" v
          = (VerbNormalizer.normalize CANONICAL_VERBS_LIST simSelf 0 "fund").2) ∧
     ((VerbNormalizer.normalize CANONICAL_VERBS_LIST simSelf 0 "fund").2 < 0 →
        (VerbNormalizer.normalize CANONICAL_VERBS_LIST simSelf 0 "fund").1 = none) ∧
     (0 ≤ (VerbNormalizer.normalize CANONICAL_VERBS_LIST simSelf 0 "fund").2 →
        ∃ v ∈ CANONICAL_VERBS_LIST,
          (VerbNormalizer.normalize CANONICAL_VERBS_LIST simSelf 0 "fund").1 = some v ∧
          simSelf "fund" v
            = (VerbNormalizer.normalize CANONICAL_VERBS_LIST simSelf 0 "fund").2)) :=
  ⟨by decide, C7_normalize_selects_max CANONICAL_VERBS_LIST simSelf 0 "fund" (by decide)⟩

/-! ## Claim C8 — word chunking -/

/-- Claim C8: with the "word" method, zero overlap and chunk size 900, a
text of exactly 2000 whitespace-separated words splits into exactly three
chunks of 900, 900 and 200 words; and in general (zero overlap, positive
chunk size) every produced chunk has at most `chunk_size` words and the
chunks' words concatenate, in order, to the words of the input. -/
theorem C8_word_chunking :
    (∀ text : List Char, (pyWordsChars text).length = 2000 →
      ∃ c1 c2 c3, TextChunker.chunk_by_words 900 0 text = some [c1, c2, c3] ∧
        (pyWordsChars c1).length = 900 ∧ (pyWordsChars c2).length = 900 ∧
        (pyWordsChars c3).length = 200) ∧
    (∀ (chunkSize : Nat) (text : List Char), 0 < chunkSize →
      (∀ c ∈ (TextChunker.chunk_by_words chunkSize 0 text).getD [],
          (pyWordsChars c).length ≤ chunkSize) ∧
      (((TextChunker.chunk_by_words chunkSize 0 text).getD []).map pyWordsChars).flatten
        = pyWordsChars text) := by
  constructor
  · intro text h2000
    obtain ⟨heq, hround⟩ := chunk_by_words_eq 900 (by norm_num) text
    rw [h2000, pyRange_2000_900] at heq hround
    refine ⟨joinSpace (((pyWordsChars text).drop 0).take 900),
            joinSpace (((pyWordsChars text).drop 900).take 900),
            joinSpace (((pyWordsChars text).drop 1800).take 900), ?_, ?_, ?_, ?_⟩
    · simpa using heq
    · rw [hround 0 (by simp)]
      simp [h2000]
    · rw [hround 900 (by simp)]
      simp [h2000]
    · rw [hround 1800 (by simp)]
      simp [h2000]
  · intro cs text hcs
    obtain ⟨heq, hround⟩ := chunk_by_words_eq cs hcs text
    rw [heq]
    simp only [Option.getD_some]
    constructor
    · intro c hc
      obtain ⟨i, hi, rfl⟩ := List.mem_map.mp hc
      rw [hround i hi]
      simp
    · rw [List.map_map,
        List.map_congr_left (fun i hi => by
          simp only [Function.comp_apply]
          exact hround i hi)]
      exact pyRange_cover cs hcs _ _ rfl

/-- Claim C8 witness: the concrete text of 2000 one-letter words has 2000
words, splits into three chunks of 900, 900 and 200 words, and satisfies
the general bound-and-coverage contract at chunk size 900. -/
theorem C8_word_chunking_witness :
    (pyWordsChars wordsText).length = 2000 ∧
    (∃ c1 c2 c3, TextChunker.chunk_by_words 900 0 wordsText = some [c1, c2, c3] ∧
      (pyWordsChars c1).length = 900 ∧ (pyWordsChars c2).length = 900 ∧
      (pyWordsChars c3).length = 200) ∧
    (0 : Nat) < 900 ∧
    ((∀ c ∈ (TextChunker.chunk_by_words 900 0 wordsText).getD [],
        (pyWordsChars c).length ≤ 900) ∧
      (((TextChunker.chunk_by_words 900 0 wordsText).getD []).map pyWordsChars).flatten
        = pyWordsChars wordsText) := by
  have hgood : ∀ w ∈ List.replicate 2000 ['w'], w ≠ [] ∧ ∀ c ∈ w, nonWs c = true := by
    intro w hw
    rw [List.eq_of_mem_replicate hw]
    refine ⟨by simp, ?_⟩
    intro c hc
    simp at hc
    subst hc
    decide
  have h2000 : (pyWordsChars wordsText).length = 2000 := by
    unfold wordsText
    rw [pyWordsChars_joinSpace _ hgood, List.length_replicate]
  exact ⟨h2000, C8_word_chunking.1 wordsText h2000, by norm_num,
    C8_word_chunking.2 900 wordsText (by norm_num)⟩

/-! ## Claim C9 — `validate` mutates its input only on acceptance -/

/-- Claim C9: when `validate` rejects, the candidate dictionary is returned
exactly as passed in; when it accepts, only `role` (rewritten to the
matched catalog name when actor matching is required, to the trimmed role
otherwise), `counterrole` and `practice` (their trimmed values) are
overwritten, and every other field of the dictionary is unchanged. -/
theorem C9_validate_frame (v : TripletValidator)
    (f : String → List String → Int → Option String) (d : TripletDict) :
    ((v.validate f d).1.is_valid = false → (v.validate f d).2 = d) ∧
    ((v.validate f d).1.is_valid = true →
      (v.validate f d).2.context = d.context ∧
      (v.validate f d).2.chunk_id = d.chunk_id ∧
      (v.validate f d).2.practice_original = d.practice_original ∧
      (v.validate f d).2.practice_score = d.practice_score ∧
      (v.validate f d).2.model_confidence = d.model_confidence ∧
      (v.validate f d).2.ner = d.ner ∧
      (v.validate f d).2.extra = d.extra ∧
      (v.validate f d).2.counterrole = pyStrip d.counterrole ∧
      (v.validate f d).2.practice = pyStrip d.practice ∧
      (v.require_actor_match = false → (v.validate f d).2.role = pyStrip d.role) ∧
      (v.require_actor_match = true →
        v.matcher.matchName f (pyStrip d.role) (some v.fuzzy_threshold)
          = some ((v.validate f d).2.role))) := by
  unfold TripletValidator.validate
  dsimp only
  split_ifs with h1 h2 h3 h4 h5 h6 h7
  · exact ⟨fun _ => rfl, by simp⟩
  · exact ⟨fun _ => rfl, by simp⟩
  · exact ⟨fun _ => rfl, by simp⟩
  · exact ⟨fun _ => rfl, by simp⟩
  · exact ⟨fun _ => rfl, by simp⟩
  · exact ⟨fun _ => rfl, by simp⟩
  · rcases hm : v.matcher.matchName f (pyStrip d.role) (some v.fuzzy_threshold) with _ | m
    · simp only [hm]
      exact ⟨by simp, by simp⟩
    · simp only [hm]
      split_ifs with he
      · exact ⟨by simp, by simp⟩
      · refine ⟨by simp, fun _ => ?_⟩
        refine ⟨rfl, rfl, rfl, rfl, rfl, rfl, rfl, rfl, rfl, ?_, fun _ => rfl⟩
        intro hc
        rw [hc] at h7
        exact absurd h7 (by decide)
  · refine ⟨by simp, fun _ => ?_⟩
    refine ⟨rfl, rfl, rfl, rfl, rfl, rfl, rfl, rfl, rfl, fun _ => rfl, fun hc => absurd hc h7⟩

/-- Claim C9 witness: `demoAccepted` is accepted by `demoValidator`, and
the returned dictionary differs from the input exactly as the frame
property describes. -/
theorem C9_validate_frame_witness :
    (TripletValidator.validate demoValidator extractOneNone demoAccepted).1.is_valid
      = true ∧
    ((TripletValidator.validate demoValidator extractOneNone demoAccepted).2.context
        = demoAccepted.context ∧
      (TripletValidator.validate demoValidator extractOneNone demoAccepted).2.chunk_id
        = demoAccepted.chunk_id ∧
      (TripletValidator.validate demoValidator extractOneNone
          demoAccepted).2.practice_original = demoAccepted.practice_original ∧
      (TripletValidator.validate demoValidator extractOneNone
          demoAccepted).2.practice_score = demoAccepted.practice_score ∧
      (TripletValidator.validate demoValidator extractOneNone
          demoAccepted).2.model_confidence = demoAccepted.model_confidence ∧
      (TripletValidator.validate demoValidator extractOneNone demoAccepted).2.ner
        = demoAccepted.ner ∧
      (TripletValidator.validate demoValidator extractOneNone demoAccepted).2.extra
        = demoAccepted.extra ∧
      (TripletValidator.validate demoValidator extractOneNone demoAccepted).2.counterrole
        = pyStrip demoAccepted.counterrole ∧
      (TripletValidator.validate demoValidator extractOneNone demoAccepted).2.practice
        = pyStrip demoAccepted.practice ∧
      (demoValidator.require_actor_match = false →
        (TripletValidator.validate demoValidator extractOneNone demoAccepted).2.role
          = pyStrip demoAccepted.role) ∧
      (demoValidator.require_actor_match = true →
        demoValidator.matcher.matchName extractOneNone (pyStrip demoAccepted.role)
            (some demoValidator.fuzzy_threshold)
          = some ((TripletValidator.validate demoValidator extractOneNone
              demoAccepted).2.role))) :=
  ⟨by decide,
   (C9_validate_frame demoValidator extractOneNone demoAccepted).2 (by decide)⟩

/-! ## Claim C10 — `remove_actor` touches at most one category -/

/-- Claim C10: `remove_actor` returns `true` exactly when the actor occurs
in some category, and when the actor is listed under at least two
categories a single successful removal leaves `contains` still true —
the scan stops at the first category containing the actor. -/
theorem C10_remove_actor_single_category (c : List (String × List String))
    (actor : String) :
    ((ActorCatalog.remove_actor c actor).1 = true
      ↔ ActorCatalog.contains c actor = true) ∧
    (2 ≤ (c.filter (fun e => decide (actor ∈ e.2))).length →
      ActorCatalog.contains (ActorCatalog.remove_actor c actor).2 actor = true) := by
  induction c with
  | nil => simp [ActorCatalog.remove_actor, ActorCatalog.contains]
  | cons e rest ih =>
    obtain ⟨ih1, ih2⟩ := ih
    rcases e with ⟨category, actors⟩
    by_cases hmem : actor ∈ actors
    · refine ⟨by simp [ActorCatalog.remove_actor, hmem, ActorCatalog.contains], ?_⟩
      intro h2
      have hrest : 1 ≤ (rest.filter (fun e => decide (actor ∈ e.2))).length := by
        simp only [List.filter_cons, hmem] at h2
        simp at h2
        omega
      obtain ⟨x, hx⟩ := List.exists_mem_of_length_pos (by omega :
        0 < (rest.filter (fun e => decide (actor ∈ e.2))).length)
      have hx' := List.mem_filter.mp hx
      simp only [ActorCatalog.remove_actor, if_pos hmem, ActorCatalog.contains,
        List.any_cons]
      apply Bool.or_eq_true_iff.mpr
      right
      exact List.any_eq_true.mpr ⟨x, hx'.1, hx'.2⟩
    · have hrm : ActorCatalog.remove_actor ((category, actors) :: rest) actor
          = ((ActorCatalog.remove_actor rest actor).1,
             (category, actors) :: (ActorCatalog.remove_actor rest actor).2) := by
        simp [ActorCatalog.remove_actor, hmem]
      refine ⟨?_, ?_⟩
      · rw [hrm]
        simp only [ActorCatalog.contains, List.any_cons]
        rw [ih1]
        simp [ActorCatalog.contains, hmem]
      · intro h2
        have h2' : 2 ≤ (rest.filter (fun e => decide (actor ∈ e.2))).length := by
          simpa [List.filter_cons, hmem] using h2
        rw [hrm]
        simp only [ActorCatalog.contains, List.any_cons]
        apply Bool.or_eq_true_iff.mpr
        right
        exact ih2 h2'

/-- Claim C10 witness: with "MIT" listed under two categories, a single
removal reports success and the catalog still contains "MIT". -/
theorem C10_remove_actor_single_category_witness :
    ((ActorCatalog.remove_actor demoCatalog "MIT").1 = true
      ↔ ActorCatalog.contains demoCatalog "MIT" = true) ∧
    ActorCatalog.contains (ActorCatalog.remove_actor demoCatalog "MIT").2 "MIT"
      = true :=
  ⟨(C10_remove_actor_single_category demoCatalog "MIT").1,
   (C10_remove_actor_single_category demoCatalog "MIT").2 (by decide)⟩
